import Mathlib

/-!
Verification of the spectral peak extractor `peaks` from
`src/examples/hpcp/_muslib.py` (the core selected by the specification).

The Python code is embedded shallowly over `ℚ`:

* `pyGet` models Python list indexing (negative indices wrap from the end);
* `interpolate` is the nested helper of `peaks` (lines 27-31);
* `fallScan`, `riseScan`, `plateauScan` model the three bounded inner
  `while` loops of the scan (lines 44-52), each with an explicit fuel
  argument so that the definitions stay executable; `peaks` always supplies
  enough fuel for every loop to reach its stop condition;
* `scanLoop` models the outer `while True` loop (lines 42-88), again with
  fuel; the second component of its state is ghost instrumentation that
  records the argument triple of every call to `interpolate` made by the
  scan (used to reason about the division-by-zero branch);
* `peaksScan` / `peaks` assemble the whole function (lines 18-93):
  boundary-peak check, scan, and the final split into the two parallel
  output lists.
-/

namespace Muslib

/-- Positional lookup in a list of rationals, defaulting to `0` past the
end. -/
def listNth : List ℚ → ℕ → ℚ
  | [], _ => 0
  | x :: _, 0 => x
  | _ :: xs, n + 1 => listNth xs n

/-- Python-style list indexing as used by `_muslib.py`: a negative index
wraps around from the end of the list (`data[-1]` is the last element).
Indices that are out of range even after wrapping default to `0`; such
accesses do not occur in any reachable state of the scan. -/
def pyGet (d : List ℚ) (k : Int) : ℚ :=
  if k < 0 then listNth d ((d.length : Int) + k).toNat else listNth d k.toNat

/-- The nested helper `interpolate(left, mid, right, c_bin)` of `peaks`
(src/examples/hpcp/_muslib.py lines 27-31): parabolic refinement of a peak
from three consecutive samples, returning the refined bin and value. -/
def interpolate (left mid right c_bin : ℚ) : ℚ × ℚ :=
  let delta_x := 0.5 * ((left - right) / (left - 2 * mid + right))
  (c_bin + delta_x, mid - 0.25 * (left - right) * delta_x)

/-- First inner loop of the scan (lines 44-45):
`while i + 1 < size - 1 and data[i] >= data[i + 1]: i += 1`. -/
def fallScan (d : List ℚ) (size : Int) : ℕ → Int → Int
  | 0, i => i
  | fuel + 1, i =>
    if i + 1 < size - 1 ∧ pyGet d i ≥ pyGet d (i + 1) then fallScan d size fuel (i + 1) else i

/-- Second inner loop of the scan (lines 46-47):
`while i + 1 < size - 1 and data[i] < data[i + 1]: i += 1`. -/
def riseScan (d : List ℚ) (size : Int) : ℕ → Int → Int
  | 0, i => i
  | fuel + 1, i =>
    if i + 1 < size - 1 ∧ pyGet d i < pyGet d (i + 1) then riseScan d size fuel (i + 1) else i

/-- Plateau loop of the scan (lines 50-52):
`j = i; while j + 1 < size - 1 and data[j] == data[j + 1]: j += 1`. -/
def plateauScan (d : List ℚ) (size : Int) : ℕ → Int → Int
  | 0, j => j
  | fuel + 1, j =>
    if j + 1 < size - 1 ∧ pyGet d j = pyGet d (j + 1) then plateauScan d size fuel (j + 1) else j

/-- Cursor position after the falling and rising loops of one outer
iteration starting from `i0`. -/
def nextI (d : List ℚ) (size i0 : Int) : Int :=
  riseScan d size size.toNat (fallScan d size size.toNat i0)

/-- Plateau end `j` of one outer iteration starting from `i0`. -/
def nextJ (d : List ℚ) (size i0 : Int) : Int :=
  plateauScan d size size.toNat (nextI d size i0)

/-- The peak candidate `(b, v)` computed inside the direction check
(lines 55-65): the plateau midpoint when `j != i`, otherwise the parabolic
interpolation around bin `j`. -/
def mainPeak (d : List ℚ) (i j : Int) : ℚ × ℚ :=
  if j ≠ i then (((i : ℚ) + (j : ℚ)) * 0.5, pyGet d i)
  else interpolate (pyGet d (j - 1)) (pyGet d j) (pyGet d (j + 1)) (j : ℚ)

/-- Ghost instrumentation: the `interpolate` call (if any) made by the
direction-check branch, appended to the running call trace. -/
def mainCalls (d : List ℚ) (i j : Int) (calls : List (ℚ × ℚ × ℚ)) : List (ℚ × ℚ × ℚ) :=
  if j ≠ i then calls else calls ++ [(pyGet d (j - 1), pyGet d j, pyGet d (j + 1))]

/-- The end-of-data special case (lines 74-88): when the cursor has reached
the last interior bin, append one final interpolated peak if bin `size - 2`
is a strict local maximum above the threshold.  Note that, unlike the main
branch, this append performs no `max_frequency` comparison. -/
def trailingStep (d : List ℚ) (size : Int) (scale th : ℚ) (j : Int)
    (acc : List (ℚ × ℚ)) (calls : List (ℚ × ℚ × ℚ)) :
    List (ℚ × ℚ) × List (ℚ × ℚ × ℚ) :=
  if j = size - 2 ∧ pyGet d (j - 1) < pyGet d j ∧ pyGet d (j + 1) < pyGet d j ∧
      pyGet d j > th then
    (acc ++ [((interpolate (pyGet d (j - 1)) (pyGet d j) (pyGet d (j + 1)) (j : ℚ)).1 * scale,
              (interpolate (pyGet d (j - 1)) (pyGet d j) (pyGet d (j + 1)) (j : ℚ)).2)],
     calls ++ [(pyGet d (j - 1), pyGet d j, pyGet d (j + 1))])
  else (acc, calls)

/-- The outer `while True` loop of `peaks` (lines 42-88), with fuel.  One
iteration runs the three inner loops, then the direction check with its
possible `max_frequency` break, sets the cursor to `j` and runs the
end-of-data check.  The call trace of `interpolate` is threaded through as
ghost state. -/
def scanLoop (d : List ℚ) (size : Int) (scale maxF th : ℚ) :
    ℕ → Int → List (ℚ × ℚ) → List (ℚ × ℚ × ℚ) →
    Option (List (ℚ × ℚ) × List (ℚ × ℚ × ℚ))
  | 0, _, _, _ => none
  | fuel + 1, i0, acc, calls =>
    if nextJ d size i0 + 1 < size - 1 ∧
        pyGet d (nextJ d size i0 + 1) < pyGet d (nextJ d size i0) ∧
        pyGet d (nextJ d size i0) > th then
      if (mainPeak d (nextI d size i0) (nextJ d size i0)).1 * scale > maxF then
        some (acc, mainCalls d (nextI d size i0) (nextJ d size i0) calls)
      else
        if nextJ d size i0 + 1 ≥ size - 1 then
          some (trailingStep d size scale th (nextJ d size i0)
            (acc ++ [((mainPeak d (nextI d size i0) (nextJ d size i0)).1 * scale,
                      (mainPeak d (nextI d size i0) (nextJ d size i0)).2)])
            (mainCalls d (nextI d size i0) (nextJ d size i0) calls))
        else
          scanLoop d size scale maxF th fuel (nextJ d size i0)
            (acc ++ [((mainPeak d (nextI d size i0) (nextJ d size i0)).1 * scale,
                      (mainPeak d (nextI d size i0) (nextJ d size i0)).2)])
            (mainCalls d (nextI d size i0) (nextJ d size i0) calls)
    else
      if nextJ d size i0 + 1 ≥ size - 1 then
        some (trailingStep d size scale th (nextJ d size i0) acc calls)
      else
        scanLoop d size scale maxF th fuel (nextJ d size i0) acc calls

/-- The boundary-peak check of `peaks` (lines 37-40): with `i = 0`, if
`i + 1 < size and data[i] > data[i + 1] and data[i] > threshold` then the
pair `(i * scale, data[i])` opens the peak list. -/
def initPeaks (d : List ℚ) (size : Int) (scale th : ℚ) : List (ℚ × ℚ) :=
  if 0 + 1 < size ∧ pyGet d 0 > pyGet d 1 ∧ pyGet d 0 > th then
    [((0 : ℚ) * scale, pyGet d 0)]
  else []

/-- The whole `peaks` computation (lines 18-93) before the final split:
the accumulated `(pos, val)` pairs together with the ghost trace of
`interpolate` calls.  The fuel `size + 1` is enough for the outer loop to
terminate on its own (proved below); the `getD` default is never used. -/
def peaksScan (data : List ℚ) (max_frequency sample_rate threshold : ℚ) :
    List (ℚ × ℚ) × List (ℚ × ℚ × ℚ) :=
  (scanLoop data (data.length : Int) (sample_rate / (data.length : ℚ)) max_frequency threshold
      ((data.length : Int).toNat + 1) 0
      (initPeaks data (data.length : Int) (sample_rate / (data.length : ℚ)) threshold)
      []).getD
    (initPeaks data (data.length : Int) (sample_rate / (data.length : ℚ)) threshold, [])

/-- The function `peaks(data, max_frequency, sample_rate, threshold)` of
`src/examples/hpcp/_muslib.py` (lines 18-93): the returned pair
`(positions, amplitudes)`, a.k.a. `(frequencies, magnitudes)`.  Defaults
mirror the Python signature. -/
def peaks (data : List ℚ) (max_frequency : ℚ := 5000) (sample_rate : ℚ := 44100)
    (threshold : ℚ := 0) : List ℚ × List ℚ :=
  ((peaksScan data max_frequency sample_rate threshold).1.map Prod.fst,
   (peaksScan data max_frequency sample_rate threshold).1.map Prod.snd)

/-! ### Properties of the inner loops -/

lemma fallScan_ge (d : List ℚ) (size : Int) :
    ∀ (fuel : ℕ) (i : Int), i ≤ fallScan d size fuel i := by
  intro fuel
  induction fuel with
  | zero => intro i; simp [fallScan]
  | succ n ih =>
    intro i
    simp only [fallScan]
    split
    · exact le_trans (by omega) (ih (i + 1))
    · exact le_refl i

lemma fallScan_le (d : List ℚ) (size : Int) :
    ∀ (fuel : ℕ) (i : Int), i ≤ size - 2 → fallScan d size fuel i ≤ size - 2 := by
  intro fuel
  induction fuel with
  | zero => intro i h; simpa [fallScan] using h
  | succ n ih =>
    intro i h
    simp only [fallScan]
    split
    · next hc => exact ih (i + 1) (by omega)
    · exact h

lemma fallScan_stop (d : List ℚ) (size : Int) :
    ∀ (fuel : ℕ) (i : Int), (size - 2 - i).toNat < fuel →
      ¬(fallScan d size fuel i + 1 < size - 1 ∧
        pyGet d (fallScan d size fuel i) ≥ pyGet d (fallScan d size fuel i + 1)) := by
  intro fuel
  induction fuel with
  | zero => intro i h; omega
  | succ n ih =>
    intro i h
    simp only [fallScan]
    split
    · next hc => exact ih (i + 1) (by omega)
    · next hc => exact hc

lemma riseScan_ge (d : List ℚ) (size : Int) :
    ∀ (fuel : ℕ) (i : Int), i ≤ riseScan d size fuel i := by
  intro fuel
  induction fuel with
  | zero => intro i; simp [riseScan]
  | succ n ih =>
    intro i
    simp only [riseScan]
    split
    · exact le_trans (by omega) (ih (i + 1))
    · exact le_refl i

lemma riseScan_le (d : List ℚ) (size : Int) :
    ∀ (fuel : ℕ) (i : Int), i ≤ size - 2 → riseScan d size fuel i ≤ size - 2 := by
  intro fuel
  induction fuel with
  | zero => intro i h; simpa [riseScan] using h
  | succ n ih =>
    intro i h
    simp only [riseScan]
    split
    · next hc => exact ih (i + 1) (by omega)
    · exact h

lemma riseScan_fix (d : List ℚ) (size : Int) (fuel : ℕ) (i : Int) (hf : 0 < fuel)
    (h : riseScan d size fuel i = i) :
    ¬(i + 1 < size - 1 ∧ pyGet d i < pyGet d (i + 1)) := by
  cases fuel with
  | zero => omega
  | succ n =>
    intro hc
    rw [riseScan, if_pos hc] at h
    have := riseScan_ge d size n (i + 1)
    omega

lemma riseScan_last (d : List ℚ) (size : Int) :
    ∀ (fuel : ℕ) (i : Int), riseScan d size fuel i ≠ i →
      pyGet d (riseScan d size fuel i - 1) < pyGet d (riseScan d size fuel i) := by
  intro fuel
  induction fuel with
  | zero => intro i h; simp [riseScan] at h
  | succ n ih =>
    intro i h
    simp only [riseScan] at h ⊢
    split at h
    · next hc =>
      rw [if_pos hc]
      by_cases hri : riseScan d size n (i + 1) = i + 1
      · rw [hri]
        simpa using hc.2
      · exact ih (i + 1) hri
    · exact absurd rfl h

lemma plateauScan_ge (d : List ℚ) (size : Int) :
    ∀ (fuel : ℕ) (j : Int), j ≤ plateauScan d size fuel j := by
  intro fuel
  induction fuel with
  | zero => intro j; simp [plateauScan]
  | succ n ih =>
    intro j
    simp only [plateauScan]
    split
    · exact le_trans (by omega) (ih (j + 1))
    · exact le_refl j

lemma plateauScan_le (d : List ℚ) (size : Int) :
    ∀ (fuel : ℕ) (j : Int), j ≤ size - 2 → plateauScan d size fuel j ≤ size - 2 := by
  intro fuel
  induction fuel with
  | zero => intro j h; simpa [plateauScan] using h
  | succ n ih =>
    intro j h
    simp only [plateauScan]
    split
    · next hc => exact ih (j + 1) (by omega)
    · exact h

lemma plateauScan_val (d : List ℚ) (size : Int) :
    ∀ (fuel : ℕ) (j : Int), pyGet d (plateauScan d size fuel j) = pyGet d j := by
  intro fuel
  induction fuel with
  | zero => intro j; simp [plateauScan]
  | succ n ih =>
    intro j
    simp only [plateauScan]
    split
    · next hc => rw [ih (j + 1)]; exact hc.2.symm
    · rfl

/-! ### Properties of one outer iteration -/

lemma nextI_ge (d : List ℚ) (size i0 : Int) : i0 ≤ nextI d size i0 :=
  le_trans (fallScan_ge d size size.toNat i0)
    (riseScan_ge d size size.toNat (fallScan d size size.toNat i0))

lemma nextJ_ge (d : List ℚ) (size i0 : Int) : i0 ≤ nextJ d size i0 :=
  le_trans (nextI_ge d size i0) (plateauScan_ge d size size.toNat (nextI d size i0))

lemma nextI_le (d : List ℚ) (size i0 : Int) (h : i0 ≤ size - 2) :
    nextI d size i0 ≤ size - 2 :=
  riseScan_le d size size.toNat (fallScan d size size.toNat i0)
    (fallScan_le d size size.toNat i0 h)

lemma nextJ_le (d : List ℚ) (size i0 : Int) (h : i0 ≤ size - 2) :
    nextJ d size i0 ≤ size - 2 :=
  plateauScan_le d size size.toNat (nextI d size i0) (nextI_le d size i0 h)

/-- If neither the falling nor the rising loop can advance, the cursor has
already reached the last interior bin. -/
lemma nextI_progress (d : List ℚ) (size i0 : Int) (h3 : 3 ≤ size) (h0 : 0 ≤ i0)
    (heq : nextI d size i0 = i0) : ¬(i0 + 1 < size - 1) := by
  intro hb
  have hfge : i0 ≤ fallScan d size size.toNat i0 := fallScan_ge d size size.toNat i0
  have hrge : fallScan d size size.toNat i0 ≤ nextI d size i0 :=
    riseScan_ge d size size.toNat (fallScan d size size.toNat i0)
  have hfeq : fallScan d size size.toNat i0 = i0 := by omega
  have hfuel : (size - 2 - i0).toNat < size.toNat := by omega
  have hstop := fallScan_stop d size size.toNat i0 hfuel
  rw [hfeq] at hstop
  have hreq : riseScan d size size.toNat i0 = i0 := by
    have hdef : nextI d size i0 = riseScan d size size.toNat (fallScan d size size.toNat i0) :=
      rfl
    rw [hdef, hfeq] at heq
    exact heq
  have hrfix := riseScan_fix d size size.toNat i0 (by omega) hreq
  rcases lt_or_le (pyGet d i0) (pyGet d (i0 + 1)) with hlt | hge
  · exact hrfix ⟨hb, hlt⟩
  · exact hstop ⟨hb, hge⟩

/-- If a direction check can pass at all (`j + 1 < size - 1` with `j` the
plateau end), then the rising or falling loop advanced this iteration. -/
lemma nextI_adv (d : List ℚ) (size i0 : Int) (h3 : 3 ≤ size) (h0 : 0 ≤ i0)
    (hb : nextJ d size i0 + 1 < size - 1) : i0 + 1 ≤ nextI d size i0 := by
  have hge := nextI_ge d size i0
  rcases eq_or_lt_of_le hge with heq | hlt
  · exfalso
    have hJ := plateauScan_ge d size size.toNat (nextI d size i0)
    exact nextI_progress d size i0 h3 h0 heq.symm (by unfold nextJ at hb; omega)
  · omega

/-- When the direction check passes with an empty plateau (`j = i`), the bin
to the left of the peak is strictly below it: the rising loop advanced last. -/
lemma nextI_left_lt (d : List ℚ) (size i0 : Int) (h3 : 3 ≤ size) (h0 : 0 ≤ i0)
    (hji : nextJ d size i0 = nextI d size i0) (hb : nextJ d size i0 + 1 < size - 1) :
    pyGet d (nextI d size i0 - 1) < pyGet d (nextI d size i0) := by
  by_cases hadv : riseScan d size size.toNat (fallScan d size size.toNat i0) =
      fallScan d size size.toNat i0
  · exfalso
    have hfuel : (size - 2 - i0).toNat < size.toNat := by omega
    have hstop := fallScan_stop d size size.toNat i0 hfuel
    have hfix := riseScan_fix d size size.toNat (fallScan d size size.toNat i0) (by omega) hadv
    have hbI : nextI d size i0 + 1 < size - 1 := by
      have := hji ▸ hb
      omega
    have hIeq : nextI d size i0 = fallScan d size size.toNat i0 := hadv
    rw [hIeq] at hbI
    rcases lt_or_le (pyGet d (fallScan d size size.toNat i0))
        (pyGet d (fallScan d size size.toNat i0 + 1)) with hlt | hge
    · exact hfix ⟨hbI, hlt⟩
    · exact hstop ⟨hbI, hge⟩
  · exact riseScan_last d size size.toNat (fallScan d size size.toNat i0) hadv

/-! ### Properties of the parabolic interpolation -/

/-- At a strict local maximum the interpolation denominator is strictly
negative, the refined bin moves by strictly less than half a bin, and the
refined value is at least the central sample. -/
lemma interpolate_bounds (l m r c : ℚ) (hl : l < m) (hr : r < m) :
    c - 1/2 < (interpolate l m r c).1 ∧ (interpolate l m r c).1 < c + 1/2 ∧
      m ≤ (interpolate l m r c).2 := by
  have hD : l - 2 * m + r < 0 := by linarith
  have hDne : l - 2 * m + r ≠ 0 := ne_of_lt hD
  have key1 : (0.5 : ℚ) * ((l - r) / (l - 2 * m + r)) + 1/2 = (l - m) / (l - 2 * m + r) := by
    field_simp
    ring
  have key2 : (0.5 : ℚ) * ((l - r) / (l - 2 * m + r)) - 1/2 = (m - r) / (l - 2 * m + r) := by
    field_simp
    ring
  have pos1 : 0 < (l - m) / (l - 2 * m + r) := div_pos_of_neg_of_neg (by linarith) hD
  have neg2 : (m - r) / (l - 2 * m + r) < 0 := div_neg_of_pos_of_neg (by linarith) hD
  have key3 : (interpolate l m r c).2 - m =
      -((l - r) * (l - r) / (l - 2 * m + r)) / 8 := by
    simp only [interpolate]
    field_simp
    ring
  have nonneg3 : 0 ≤ -((l - r) * (l - r) / (l - 2 * m + r)) / 8 := by
    have : (l - r) * (l - r) / (l - 2 * m + r) ≤ 0 :=
      div_nonpos_iff.mpr (Or.inl ⟨mul_self_nonneg (l - r), le_of_lt hD⟩)
    linarith
  refine ⟨?_, ?_, ?_⟩
  · simp only [interpolate]
    linarith
  · simp only [interpolate]
    linarith
  · linarith [key3, nonneg3]

/-- Bounds for the candidate peak of a passing direction check: its bin lies
strictly between `i0 + 1/2` and `j + 1/2`, and its value is above the
threshold. -/
lemma mainPeak_facts (d : List ℚ) (size i0 : Int) (th : ℚ) (h3 : 3 ≤ size) (h0 : 0 ≤ i0)
    (hb : nextJ d size i0 + 1 < size - 1)
    (hdown : pyGet d (nextJ d size i0 + 1) < pyGet d (nextJ d size i0))
    (hth : pyGet d (nextJ d size i0) > th) :
    (i0 : ℚ) + 1/2 < (mainPeak d (nextI d size i0) (nextJ d size i0)).1 ∧
    (mainPeak d (nextI d size i0) (nextJ d size i0)).1 < ((nextJ d size i0 : Int) : ℚ) + 1/2 ∧
    th < (mainPeak d (nextI d size i0) (nextJ d size i0)).2 := by
  set i := nextI d size i0 with hi
  set j := nextJ d size i0 with hj
  have hIge : i0 ≤ i := nextI_ge d size i0
  have hJgeI : i ≤ j := plateauScan_ge d size size.toNat i
  have hadv : i0 + 1 ≤ i := nextI_adv d size i0 h3 h0 hb
  have h05 : (0.5 : ℚ) = 1/2 := by norm_num
  rcases eq_or_ne j i with hji | hji
  · have hlm : pyGet d (i - 1) < pyGet d i := nextI_left_lt d size i0 h3 h0 hji hb
    rw [mainPeak, if_neg (by simp [hji])]
    have hbnd := interpolate_bounds (pyGet d (j - 1)) (pyGet d j) (pyGet d (j + 1)) (j : ℚ)
        (by rw [hji]; exact hlm) hdown
    have hcast : (i0 : ℚ) + 1 ≤ (j : ℚ) := by exact_mod_cast (by omega : i0 + 1 ≤ j)
    exact ⟨by linarith [hbnd.1], hbnd.2.1, lt_of_lt_of_le hth hbnd.2.2⟩
  · have hJgt : i + 1 ≤ j := by omega
    rw [mainPeak, if_pos hji]
    have hc1 : (i0 : ℚ) + 1 ≤ (i : ℚ) := by exact_mod_cast hadv
    have hc2 : (i : ℚ) + 1 ≤ (j : ℚ) := by exact_mod_cast hJgt
    have hval : pyGet d j = pyGet d i := plateauScan_val d size size.toNat i
    refine ⟨?_, ?_, ?_⟩
    · show (i0 : ℚ) + 1/2 < ((i : ℚ) + (j : ℚ)) * 0.5
      rw [h05]
      linarith
    · show ((i : ℚ) + (j : ℚ)) * 0.5 < (j : ℚ) + 1/2
      rw [h05]
      linarith
    · show th < pyGet d i
      rw [← hval]
      exact hth

/-- Every `interpolate` call recorded by a passing direction check has a
strictly negative denominator. -/
lemma mainCalls_facts (d : List ℚ) (size i0 : Int) (calls : List (ℚ × ℚ × ℚ))
    (h3 : 3 ≤ size) (h0 : 0 ≤ i0)
    (hb : nextJ d size i0 + 1 < size - 1)
    (hdown : pyGet d (nextJ d size i0 + 1) < pyGet d (nextJ d size i0))
    (hcalls : ∀ c ∈ calls, c.1 - 2 * c.2.1 + c.2.2 < 0) :
    ∀ c ∈ mainCalls d (nextI d size i0) (nextJ d size i0) calls,
      c.1 - 2 * c.2.1 + c.2.2 < 0 := by
  set i := nextI d size i0 with hi
  set j := nextJ d size i0 with hj
  intro c hc
  rw [mainCalls] at hc
  split_ifs at hc with hji
  · exact hcalls c hc
  · push_neg at hji
    rcases List.mem_append.mp hc with hcl | hcr
    · exact hcalls c hcl
    · have hlm : pyGet d (i - 1) < pyGet d i := nextI_left_lt d size i0 h3 h0 hji hb
      have hceq : c = (pyGet d (j - 1), pyGet d j, pyGet d (j + 1)) := by simpa using hcr
      rw [hceq]
      show pyGet d (j - 1) - 2 * pyGet d j + pyGet d (j + 1) < 0
      rw [hji]
      have hdown2 : pyGet d (i + 1) < pyGet d i := by rw [← hji]; exact hdown
      linarith

/-- Master invariant of the outer scan loop: starting from a state whose
accumulated peaks all exceed the threshold, respect the frequency ceiling,
lie strictly below `(i0 + 1/2) * scale` and `(size - 5/2) * scale`, and are
strictly increasing — and whose recorded `interpolate` calls all have
negative denominators — any result the loop returns again has amplitudes
above the threshold, frequencies `≤ maxF` except possibly the last, strictly
increasing frequencies, and only negative-denominator `interpolate` calls. -/
lemma scanLoop_master (d : List ℚ) (size : Int) (scale maxF th : ℚ) (h3 : 3 ≤ size) :
    ∀ (fuel : ℕ) (i0 : Int) (acc : List (ℚ × ℚ)) (calls : List (ℚ × ℚ × ℚ))
      (res : List (ℚ × ℚ)) (cres : List (ℚ × ℚ × ℚ)),
      0 ≤ i0 → i0 ≤ size - 2 →
      (∀ pv ∈ acc, th < pv.2) →
      (0 ≤ maxF → ∀ pv ∈ acc, pv.1 ≤ maxF) →
      (0 < scale → ∀ pv ∈ acc, pv.1 < ((i0 : ℚ) + 1/2) * scale) →
      (0 < scale → ∀ pv ∈ acc, pv.1 < ((size : ℚ) - 5/2) * scale) →
      (0 < scale → List.Pairwise (· < ·) (acc.map Prod.fst)) →
      (∀ c ∈ calls, c.1 - 2 * c.2.1 + c.2.2 < 0) →
      scanLoop d size scale maxF th fuel i0 acc calls = some (res, cres) →
      (∀ pv ∈ res, th < pv.2) ∧
      (0 ≤ maxF → ∀ pv ∈ res.dropLast, pv.1 ≤ maxF) ∧
      (0 < scale → List.Pairwise (· < ·) (res.map Prod.fst)) ∧
      (∀ c ∈ cres, c.1 - 2 * c.2.1 + c.2.2 < 0) := by
  intro fuel
  induction fuel with
  | zero =>
    intro i0 acc calls res cres _ _ _ _ _ _ _ _ h
    simp [scanLoop] at h
  | succ n ih =>
    intro i0 acc calls res cres h0 h2 hA1 hA2 hA3a hA3b hA4 hA5 h
    simp only [scanLoop] at h
    set i := nextI d size i0 with hi
    set j := nextJ d size i0 with hj
    have hIge : i0 ≤ i := nextI_ge d size i0
    have hJgeI : i ≤ j := plateauScan_ge d size size.toNat i
    have hJge : i0 ≤ j := le_trans hIge hJgeI
    have hJle : j ≤ size - 2 := nextJ_le d size i0 h2
    have hJcast : (i0 : ℚ) ≤ (j : ℚ) := by exact_mod_cast hJge
    by_cases hdir : j + 1 < size - 1 ∧ pyGet d (j + 1) < pyGet d j ∧ pyGet d j > th
    · rw [if_pos hdir] at h
      have hpk := mainPeak_facts d size i0 th h3 h0 hdir.1 hdir.2.1 hdir.2.2
      have hmc := mainCalls_facts d size i0 calls h3 h0 hdir.1 hdir.2.1 hA5
      have hJ3 : j ≤ size - 3 := by omega
      have hJ3cast : (j : ℚ) ≤ (size : ℚ) - 3 := by
        have : (j : ℚ) ≤ ((size - 3 : Int) : ℚ) := by exact_mod_cast hJ3
        push_cast at this
        linarith
      by_cases hbrk : (mainPeak d i j).1 * scale > maxF
      · rw [if_pos hbrk] at h
        obtain ⟨hres, hcres⟩ := Prod.mk.injEq .. ▸ Option.some.inj h
        subst hres
        subst hcres
        refine ⟨hA1, ?_, hA4, hmc⟩
        intro hmf pv hpv
        exact hA2 hmf pv (List.dropLast_sublist acc |>.subset hpv)
      · rw [if_neg hbrk, if_neg (by omega)] at h
        have hnew1 : th < (mainPeak d i j).2 := hpk.2.2
        have hnew2 : (mainPeak d i j).1 * scale ≤ maxF := not_lt.mp hbrk
        have happly := ih j (acc ++ [((mainPeak d i j).1 * scale, (mainPeak d i j).2)])
          (mainCalls d i j calls) res cres (by omega) (by omega)
        refine happly ?_ ?_ ?_ ?_ ?_ hmc h
        · intro pv hpv
          rcases List.mem_append.mp hpv with hl | hr
          · exact hA1 pv hl
          · have : pv = ((mainPeak d i j).1 * scale, (mainPeak d i j).2) := by simpa using hr
            rw [this]
            exact hnew1
        · intro hmf pv hpv
          rcases List.mem_append.mp hpv with hl | hr
          · exact hA2 hmf pv hl
          · have : pv = ((mainPeak d i j).1 * scale, (mainPeak d i j).2) := by simpa using hr
            rw [this]
            exact hnew2
        · intro hs pv hpv
          rcases List.mem_append.mp hpv with hl | hr
          · calc pv.1 < ((i0 : ℚ) + 1/2) * scale := hA3a hs pv hl
              _ ≤ ((j : ℚ) + 1/2) * scale := by
                have : (i0 : ℚ) + 1/2 ≤ (j : ℚ) + 1/2 := by linarith
                exact mul_le_mul_of_nonneg_right this (le_of_lt hs)
          · have : pv = ((mainPeak d i j).1 * scale, (mainPeak d i j).2) := by simpa using hr
            rw [this]
            exact mul_lt_mul_of_pos_right hpk.2.1 hs
        · intro hs pv hpv
          rcases List.mem_append.mp hpv with hl | hr
          · exact hA3b hs pv hl
          · have : pv = ((mainPeak d i j).1 * scale, (mainPeak d i j).2) := by simpa using hr
            rw [this]
            have : (mainPeak d i j).1 < (size : ℚ) - 5/2 := by linarith [hpk.2.1]
            exact mul_lt_mul_of_pos_right this hs
        · intro hs
          rw [List.map_append]
          rw [List.pairwise_append]
          refine ⟨hA4 hs, by simp, ?_⟩
          intro a ha b hbmem
          have hb1 : b = (mainPeak d i j).1 * scale := by simpa using hbmem
          rcases List.mem_map.mp ha with ⟨pv, hpv, hfst⟩
          have haval : a < ((i0 : ℚ) + 1/2) * scale := hfst ▸ hA3a hs pv hpv
          have hbval : ((i0 : ℚ) + 1/2) * scale < (mainPeak d i j).1 * scale :=
            mul_lt_mul_of_pos_right hpk.1 hs
          rw [hb1]
          linarith
    · rw [if_neg hdir] at h
      by_cases hend : j + 1 ≥ size - 1
      · rw [if_pos hend] at h
        have htr := Option.some.inj h
        rw [trailingStep] at htr
        split_ifs at htr with ht
        · obtain ⟨hres, hcres⟩ := Prod.mk.injEq .. ▸ htr
          subst hres
          subst hcres
          have hbnd := interpolate_bounds (pyGet d (j - 1)) (pyGet d j) (pyGet d (j + 1))
            (j : ℚ) ht.2.1 ht.2.2.1
          have hjval : (j : ℚ) = (size : ℚ) - 2 := by
            have : (j : ℚ) = ((size - 2 : Int) : ℚ) := by exact_mod_cast ht.1
            push_cast at this
            linarith
          refine ⟨?_, ?_, ?_, ?_⟩
          · intro pv hpv
            rcases List.mem_append.mp hpv with hl | hr
            · exact hA1 pv hl
            · have hpveq : pv =
                  ((interpolate (pyGet d (j - 1)) (pyGet d j) (pyGet d (j + 1)) (j : ℚ)).1 * scale,
                   (interpolate (pyGet d (j - 1)) (pyGet d j) (pyGet d (j + 1)) (j : ℚ)).2) := by
                simpa using hr
              rw [hpveq]
              exact lt_of_lt_of_le ht.2.2.2 hbnd.2.2
          · intro hmf pv hpv
            rw [List.dropLast_concat] at hpv
            exact hA2 hmf pv hpv
          · intro hs
            rw [List.map_append, List.pairwise_append]
            refine ⟨hA4 hs, by simp, ?_⟩
            intro a ha b hbmem
            have hb1 : b =
                (interpolate (pyGet d (j - 1)) (pyGet d j) (pyGet d (j + 1)) (j : ℚ)).1 * scale := by
              simpa using hbmem
            rcases List.mem_map.mp ha with ⟨pv, hpv, hfst⟩
            have haval : a < ((size : ℚ) - 5/2) * scale := hfst ▸ hA3b hs pv hpv
            have hblow : (size : ℚ) - 5/2 <
                (interpolate (pyGet d (j - 1)) (pyGet d j) (pyGet d (j + 1)) (j : ℚ)).1 := by
              have := hbnd.1
              rw [hjval] at this
              linarith
            have := mul_lt_mul_of_pos_right hblow hs
            rw [hb1]
            linarith
          · intro c hc
            rcases List.mem_append.mp hc with hl | hr
            · exact hA5 c hl
            · have hceq : c = (pyGet d (j - 1), pyGet d j, pyGet d (j + 1)) := by simpa using hr
              rw [hceq]
              show pyGet d (j - 1) - 2 * pyGet d j + pyGet d (j + 1) < 0
              have := ht.2.1
              have := ht.2.2.1
              linarith
        · obtain ⟨hres, hcres⟩ := Prod.mk.injEq .. ▸ htr
          subst hres
          subst hcres
          refine ⟨hA1, ?_, hA4, hA5⟩
          intro hmf pv hpv
          exact hA2 hmf pv (List.dropLast_sublist acc |>.subset hpv)
      · rw [if_neg hend] at h
        have happly := ih j acc calls res cres (by omega) (by omega)
        refine happly hA1 hA2 ?_ hA3b hA4 hA5 h
        intro hs pv hpv
        calc pv.1 < ((i0 : ℚ) + 1/2) * scale := hA3a hs pv hpv
          _ ≤ ((j : ℚ) + 1/2) * scale := by
            have : (i0 : ℚ) + 1/2 ≤ (j : ℚ) + 1/2 := by linarith
            exact mul_le_mul_of_nonneg_right this (le_of_lt hs)

/-- The outer loop always returns within the fuel budget `size + 1`: every
iteration either ends the scan or moves the cursor strictly right. -/
lemma scanLoop_total (d : List ℚ) (size : Int) (scale maxF th : ℚ) :
    ∀ (fuel : ℕ) (i0 : Int) (acc : List (ℚ × ℚ)) (calls : List (ℚ × ℚ × ℚ)),
      0 ≤ i0 → (size - 1 - i0).toNat < fuel →
      (scanLoop d size scale maxF th fuel i0 acc calls).isSome = true := by
  intro fuel
  induction fuel with
  | zero => intro i0 acc calls h0 hf; omega
  | succ n ih =>
    intro i0 acc calls h0 hf
    simp only [scanLoop]
    set i := nextI d size i0 with hi
    set j := nextJ d size i0 with hj
    have hIge : i0 ≤ i := nextI_ge d size i0
    have hJgeI : i ≤ j := plateauScan_ge d size size.toNat i
    by_cases hdir : j + 1 < size - 1 ∧ pyGet d (j + 1) < pyGet d j ∧ pyGet d j > th
    · rw [if_pos hdir]
      have hb1 := hdir.1
      by_cases hbrk : (mainPeak d i j).1 * scale > maxF
      · rw [if_pos hbrk]
        rfl
      · rw [if_neg hbrk, if_neg (by omega : ¬j + 1 ≥ size - 1)]
        have h3 : 3 ≤ size := by omega
        have hadv : i0 + 1 ≤ i := nextI_adv d size i0 h3 h0 hdir.1
        exact ih j _ _ (by omega) (by omega)
    · rw [if_neg hdir]
      by_cases hend : j + 1 ≥ size - 1
      · rw [if_pos hend]
        rfl
      · rw [if_neg hend]
        have h3 : 3 ≤ size := by omega
        have hne : j ≠ i0 := by
          intro heq
          have hieq : i = i0 := by omega
          exact nextI_progress d size i0 h3 h0 hieq (by omega)
        exact ih j _ _ (by omega) (by omega)

/-- The scan only ever appends to the accumulated peak list. -/
lemma scanLoop_prefix (d : List ℚ) (size : Int) (scale maxF th : ℚ) :
    ∀ (fuel : ℕ) (i0 : Int) (acc : List (ℚ × ℚ)) (calls : List (ℚ × ℚ × ℚ))
      (res : List (ℚ × ℚ)) (cres : List (ℚ × ℚ × ℚ)),
      scanLoop d size scale maxF th fuel i0 acc calls = some (res, cres) →
      ∃ t, res = acc ++ t := by
  intro fuel
  induction fuel with
  | zero => intro i0 acc calls res cres h; simp [scanLoop] at h
  | succ n ih =>
    intro i0 acc calls res cres h
    simp only [scanLoop] at h
    by_cases hdir : nextJ d size i0 + 1 < size - 1 ∧
        pyGet d (nextJ d size i0 + 1) < pyGet d (nextJ d size i0) ∧
        pyGet d (nextJ d size i0) > th
    · rw [if_pos hdir] at h
      by_cases hbrk : (mainPeak d (nextI d size i0) (nextJ d size i0)).1 * scale > maxF
      · rw [if_pos hbrk] at h
        obtain ⟨hres, hcres⟩ := Prod.mk.injEq .. ▸ Option.some.inj h
        exact ⟨[], by rw [← hres]; simp⟩
      · rw [if_neg hbrk] at h
        by_cases hend : nextJ d size i0 + 1 ≥ size - 1
        · rw [if_pos hend] at h
          have htr := Option.some.inj h
          rw [trailingStep] at htr
          split_ifs at htr with ht
          · obtain ⟨hres, hcres⟩ := Prod.mk.injEq .. ▸ htr
            exact ⟨_, by rw [← hres, List.append_assoc]⟩
          · obtain ⟨hres, hcres⟩ := Prod.mk.injEq .. ▸ htr
            exact ⟨_, hres.symm⟩
        · rw [if_neg hend] at h
          obtain ⟨t, ht⟩ := ih _ _ _ _ _ h
          exact ⟨_, by rw [ht, List.append_assoc]⟩
    · rw [if_neg hdir] at h
      by_cases hend : nextJ d size i0 + 1 ≥ size - 1
      · rw [if_pos hend] at h
        have htr := Option.some.inj h
        rw [trailingStep] at htr
        split_ifs at htr with ht
        · obtain ⟨hres, hcres⟩ := Prod.mk.injEq .. ▸ htr
          exact ⟨_, hres.symm⟩
        · obtain ⟨hres, hcres⟩ := Prod.mk.injEq .. ▸ htr
          exact ⟨[], by rw [← hres]; simp⟩
      · rw [if_neg hend] at h
        exact ih _ _ _ _ _ h

/-- The four scan invariants transported to `peaksScan`: amplitudes above
the threshold, frequencies below the ceiling except possibly the last one,
strictly increasing frequencies (for a positive scale), and strictly
negative denominators in every recorded `interpolate` call. -/
lemma peaksScan_props (d : List ℚ) (maxF sr th : ℚ) (h3 : 3 ≤ (d.length : Int)) :
    (∀ pv ∈ (peaksScan d maxF sr th).1, th < pv.2) ∧
    (0 ≤ maxF → ∀ pv ∈ (peaksScan d maxF sr th).1.dropLast, pv.1 ≤ maxF) ∧
    (0 < sr / (d.length : ℚ) →
      List.Pairwise (· < ·) ((peaksScan d maxF sr th).1.map Prod.fst)) ∧
    (∀ c ∈ (peaksScan d maxF sr th).2, c.1 - 2 * c.2.1 + c.2.2 < 0) := by
  have hi1 : ∀ pv ∈ initPeaks d (d.length : Int) (sr / (d.length : ℚ)) th, th < pv.2 := by
    intro pv hpv
    rw [initPeaks] at hpv
    split_ifs at hpv with hc
    · have : pv = ((0 : ℚ) * (sr / (d.length : ℚ)), pyGet d 0) := by simpa using hpv
      rw [this]
      exact hc.2.2
    · simp at hpv
  have hi2 : ∀ pv ∈ initPeaks d (d.length : Int) (sr / (d.length : ℚ)) th, pv.1 = 0 := by
    intro pv hpv
    rw [initPeaks] at hpv
    split_ifs at hpv with hc
    · have : pv = ((0 : ℚ) * (sr / (d.length : ℚ)), pyGet d 0) := by simpa using hpv
      rw [this]
      simp
    · simp at hpv
  have hi4 : List.Pairwise (· < ·)
      ((initPeaks d (d.length : Int) (sr / (d.length : ℚ)) th).map Prod.fst) := by
    rw [initPeaks]
    split_ifs <;> simp
  have hidrop : (initPeaks d (d.length : Int) (sr / (d.length : ℚ)) th).dropLast = [] := by
    rw [initPeaks]
    split_ifs <;> simp
  have hps : peaksScan d maxF sr th =
      (scanLoop d (d.length : Int) (sr / (d.length : ℚ)) maxF th
        ((d.length : Int).toNat + 1) 0
        (initPeaks d (d.length : Int) (sr / (d.length : ℚ)) th) []).getD
      (initPeaks d (d.length : Int) (sr / (d.length : ℚ)) th, []) := rfl
  cases hopt : scanLoop d (d.length : Int) (sr / (d.length : ℚ)) maxF th
      ((d.length : Int).toNat + 1) 0
      (initPeaks d (d.length : Int) (sr / (d.length : ℚ)) th) [] with
  | none =>
    rw [hopt] at hps
    simp only [Option.getD_none] at hps
    rw [hps]
    exact ⟨hi1, fun _ pv hpv => absurd (hidrop ▸ hpv) (List.not_mem_nil pv),
      fun _ => hi4, by simp⟩
  | some p =>
    obtain ⟨res, cres⟩ := p
    rw [hopt] at hps
    simp only [Option.getD_some] at hps
    rw [hps]
    refine scanLoop_master d (d.length : Int) (sr / (d.length : ℚ)) maxF th h3
      ((d.length : Int).toNat + 1) 0
      (initPeaks d (d.length : Int) (sr / (d.length : ℚ)) th) [] res cres
      le_rfl (by omega) hi1 ?_ ?_ ?_ (fun _ => hi4) (by simp) hopt
    · intro hmf pv hpv
      rw [hi2 pv hpv]
      exact hmf
    · intro hs pv hpv
      rw [hi2 pv hpv]
      push_cast
      nlinarith
    · intro hs pv hpv
      rw [hi2 pv hpv]
      have hcast : (3 : ℚ) ≤ ((d.length : Int) : ℚ) := by exact_mod_cast h3
      nlinarith

/-! ### Constant spectra -/

lemma listNth_replicate (c : ℚ) :
    ∀ (n m : ℕ), m < n → listNth (List.replicate n c) m = c := by
  intro n
  induction n with
  | zero => intro m hm; omega
  | succ k ih =>
    intro m hm
    cases m with
    | zero => simp [List.replicate_succ, listNth]
    | succ m2 =>
      rw [List.replicate_succ]
      show listNth (List.replicate k c) m2 = c
      exact ih m2 (by omega)

lemma pyGet_replicate (n : ℕ) (c : ℚ) (k : Int) (h0 : 0 ≤ k) (hk : k < (n : Int)) :
    pyGet (List.replicate n c) k = c := by
  rw [pyGet, if_neg (by omega)]
  exact listNth_replicate c n k.toNat (by omega)

lemma riseScan_stay (d : List ℚ) (size : Int) (fuel : ℕ) (i : Int)
    (h : ¬(i + 1 < size - 1 ∧ pyGet d i < pyGet d (i + 1))) :
    riseScan d size fuel i = i := by
  cases fuel with
  | zero => rfl
  | succ n => rw [riseScan, if_neg h]

lemma plateauScan_stay (d : List ℚ) (size : Int) (fuel : ℕ) (j : Int)
    (h : ¬(j + 1 < size - 1 ∧ pyGet d j = pyGet d (j + 1))) :
    plateauScan d size fuel j = j := by
  cases fuel with
  | zero => rfl
  | succ n => rw [plateauScan, if_neg h]

/-- On a constant spectrum the falling loop runs all the way to the last
interior bin. -/
lemma fallScan_replicate (n : ℕ) (c : ℚ) :
    ∀ (fuel : ℕ) (i : Int), 0 ≤ i → i ≤ (n : Int) - 2 → ((n : Int) - 2 - i).toNat < fuel →
      fallScan (List.replicate n c) (n : Int) fuel i = (n : Int) - 2 := by
  intro fuel
  induction fuel with
  | zero => intro i h0 h2 hf; omega
  | succ m ih =>
    intro i h0 h2 hf
    rcases eq_or_lt_of_le h2 with heq | hlt
    · rw [fallScan, if_neg]
      · exact heq
      · rintro ⟨hb, _⟩
        omega
    · have hg1 : pyGet (List.replicate n c) i = c := pyGet_replicate n c i h0 (by omega)
      have hg2 : pyGet (List.replicate n c) (i + 1) = c :=
        pyGet_replicate n c (i + 1) (by omega) (by omega)
      rw [fallScan, if_pos ⟨by omega, by rw [hg1, hg2]⟩]
      exact ih (i + 1) (by omega) (by omega) (by omega)

/-! ### The claims -/

set_option maxHeartbeats 1000000 in
/-- C1, counterexample: on the spectrum `[0, 2, 0]` with `sample_rate = 3`
(scale `1`), `threshold = 0` and `max_frequency = 1/2`, `peaks` returns the
trailing special-case peak at frequency `1`, which exceeds the ceiling
`1/2`: the end-of-data append is not subject to the `max_frequency` cutoff. -/
theorem trailing_peak_exceeds_max_frequency :
    peaks [0, 2, 0] (1/2) 3 0 = ([1], [2]) ∧ (1/2 : ℚ) < 1 := by
  constructor
  · norm_num [peaks, peaksScan, scanLoop, initPeaks, nextI, nextJ, fallScan, riseScan,
      plateauScan, mainPeak, mainCalls, trailingStep, interpolate, pyGet, listNth]
  · norm_num

/-- C1, amended: for a spectrum of length at least 3, positive sample rate
and nonnegative `max_frequency`, every frequency returned by `peaks` except
possibly the final one is at most `max_frequency`; only the trailing
special-case peak, appended by the end-of-data check without any ceiling
comparison, may exceed it. -/
theorem peaks_ceiling_dropLast (d : List ℚ) (maxF sr th p : ℚ) (h3 : 3 ≤ d.length)
    (hsr : 0 < sr) (hmf : 0 ≤ maxF) (hp : p ∈ (peaks d maxF sr th).1.dropLast) :
    p ≤ maxF := by
  have h3i : (3 : Int) ≤ (d.length : Int) := by exact_mod_cast h3
  have hprops := (peaksScan_props d maxF sr th h3i).2.1 hmf
  simp only [peaks] at hp
  rw [← List.map_dropLast] at hp
  rcases List.mem_map.mp hp with ⟨pv, hpv, hfst⟩
  rw [← hfst]
  exact hprops pv hpv

set_option maxHeartbeats 1000000 in
/-- C1, witness: on `[5, 1, 0, 1, 5, 1]` with `sample_rate = 6` the peaks
are at frequencies `0` and `4`; the non-final frequency `0` respects the
ceiling `5000`. -/
theorem peaks_ceiling_dropLast_witness :
    3 ≤ ([5, 1, 0, 1, 5, 1] : List ℚ).length ∧ (0 : ℚ) < 6 ∧ (0 : ℚ) ≤ 5000 ∧
    (0 : ℚ) ∈ (peaks [5, 1, 0, 1, 5, 1] 5000 6 0).1.dropLast ∧ (0 : ℚ) ≤ 5000 :=
  ⟨by norm_num, by norm_num, by norm_num,
   by norm_num [peaks, peaksScan, scanLoop, initPeaks, nextI, nextJ, fallScan, riseScan,
     plateauScan, mainPeak, mainCalls, trailingStep, interpolate, pyGet, listNth],
   peaks_ceiling_dropLast [5, 1, 0, 1, 5, 1] 5000 6 0 0 (by norm_num) (by norm_num)
     (by norm_num)
     (by norm_num [peaks, peaksScan, scanLoop, initPeaks, nextI, nextJ, fallScan, riseScan,
       plateauScan, mainPeak, mainCalls, trailingStep, interpolate, pyGet, listNth])⟩

set_option maxHeartbeats 1000000 in
/-- C2, counterexample: on the plateau spectrum `[0, 3, 3, 3, 0]` with
`threshold = 0`, `sample_rate = 5` and default `max_frequency`, `peaks`
does not return the single plateau peak `([2], [3])` claimed. -/
theorem plateau_spectrum_not_single_peak :
    peaks [0, 3, 3, 3, 0] 5000 5 0 ≠ ([2], [3]) := by
  have h : peaks [0, 3, 3, 3, 0] 5000 5 0 = ([], []) := by
    norm_num [peaks, peaksScan, scanLoop, initPeaks, nextI, nextJ, fallScan, riseScan,
      plateauScan, mainPeak, mainCalls, trailingStep, interpolate, pyGet, listNth]
  rw [h]
  simp

set_option maxHeartbeats 1000000 in
/-- C2, amended: on `[0, 3, 3, 3, 0]` with `threshold = 0`, `sample_rate = 5`
and default `max_frequency`, `peaks` returns two empty lists: the plateau
runs to bin 3, the last interior bin, so the direction check's bound
`j + 1 < size - 1` fails and no peak is ever recorded. -/
theorem plateau_spectrum_empty : peaks [0, 3, 3, 3, 0] 5000 5 0 = ([], []) := by
  norm_num [peaks, peaksScan, scanLoop, initPeaks, nextI, nextJ, fallScan, riseScan,
    plateauScan, mainPeak, mainCalls, trailingStep, interpolate, pyGet, listNth]

/-- C3: for every spectrum of length at least 3 and every parameters, every
amplitude returned by `peaks` is strictly greater than the threshold:
boundary and plateau peaks check `> threshold` directly, and an interpolated
peak's refined amplitude is at least the central sample because the
denominator `left - 2*mid + right` is strictly negative at a strict local
maximum. -/
theorem peaks_amplitudes_gt_threshold (d : List ℚ) (maxF sr th v : ℚ)
    (h3 : 3 ≤ d.length) (hv : v ∈ (peaks d maxF sr th).2) : th < v := by
  have h3i : (3 : Int) ≤ (d.length : Int) := by exact_mod_cast h3
  have hprops := (peaksScan_props d maxF sr th h3i).1
  simp only [peaks] at hv
  rcases List.mem_map.mp hv with ⟨pv, hpv, hsnd⟩
  rw [← hsnd]
  exact hprops pv hpv

set_option maxHeartbeats 1000000 in
/-- C3, witness: on `[0, 1, 0]` with threshold `0` the only returned
amplitude is `1`, which exceeds the threshold. -/
theorem peaks_amplitudes_gt_threshold_witness :
    3 ≤ ([0, 1, 0] : List ℚ).length ∧ (1 : ℚ) ∈ (peaks [0, 1, 0] 5000 3 0).2 ∧
    (0 : ℚ) < 1 :=
  ⟨by norm_num,
   by norm_num [peaks, peaksScan, scanLoop, initPeaks, nextI, nextJ, fallScan, riseScan,
     plateauScan, mainPeak, mainCalls, trailingStep, interpolate, pyGet, listNth],
   peaks_amplitudes_gt_threshold [0, 1, 0] 5000 3 0 1 (by norm_num)
     (by norm_num [peaks, peaksScan, scanLoop, initPeaks, nextI, nextJ, fallScan, riseScan,
       plateauScan, mainPeak, mainCalls, trailingStep, interpolate, pyGet, listNth])⟩

/-- C4: for every spectrum of length at least 3 and positive sample rate,
the frequency list returned by `peaks` is strictly increasing: every
appended frequency is strictly greater than all frequencies already in the
list. -/
theorem peaks_frequencies_increasing (d : List ℚ) (maxF sr th : ℚ)
    (h3 : 3 ≤ d.length) (hsr : 0 < sr) :
    List.Pairwise (· < ·) (peaks d maxF sr th).1 := by
  have h3i : (3 : Int) ≤ (d.length : Int) := by exact_mod_cast h3
  have hlen : 0 < (d.length : ℚ) := by
    have : (3 : ℚ) ≤ (d.length : ℚ) := by exact_mod_cast h3
    linarith
  have hs : 0 < sr / (d.length : ℚ) := div_pos hsr hlen
  have hprops := (peaksScan_props d maxF sr th h3i).2.2.1 hs
  simpa [peaks] using hprops

/-- C4, witness: on `[5, 1, 0, 1, 5, 1]` with `sample_rate = 6` the
returned frequencies are strictly increasing. -/
theorem peaks_frequencies_increasing_witness :
    3 ≤ ([5, 1, 0, 1, 5, 1] : List ℚ).length ∧ (0 : ℚ) < 6 ∧
    List.Pairwise (· < ·) (peaks [5, 1, 0, 1, 5, 1] 5000 6 0).1 :=
  ⟨by norm_num, by norm_num,
   peaks_frequencies_increasing [5, 1, 0, 1, 5, 1] 5000 6 0 (by norm_num) (by norm_num)⟩

/-- C5, counterexample (the claim's negation): there is no valid input on
which the scan invokes the parabolic interpolation with a zero denominator
`left - 2*mid + right`: every recorded `interpolate` call from `peaks` has
a strictly negative denominator, so the division-by-zero branch of
`interpolate` is unreachable from the scan's call sites. -/
theorem no_zero_denominator_call :
    ¬ ∃ (d : List ℚ) (maxF sr th : ℚ) (c : ℚ × ℚ × ℚ),
        3 ≤ d.length ∧ 0 < sr ∧ c ∈ (peaksScan d maxF sr th).2 ∧
        c.1 - 2 * c.2.1 + c.2.2 = 0 := by
  rintro ⟨d, maxF, sr, th, c, h3, hsr, hc, hzero⟩
  have h3i : (3 : Int) ≤ (d.length : Int) := by exact_mod_cast h3
  have := (peaksScan_props d maxF sr th h3i).2.2.2 c hc
  exact absurd hzero (ne_of_lt this)

/-- C5, amended: for every spectrum of length at least 3, every triple of
samples the scan passes to `interpolate` has a strictly negative denominator
`left - 2*mid + right < 0` — both neighbours of the interpolated bin are
strictly below its value — so the degenerate division-by-zero case is
unreachable from the scan. -/
theorem interp_calls_denominator_neg (d : List ℚ) (maxF sr th : ℚ) (c : ℚ × ℚ × ℚ)
    (h3 : 3 ≤ d.length) (hc : c ∈ (peaksScan d maxF sr th).2) :
    c.1 - 2 * c.2.1 + c.2.2 < 0 := by
  have h3i : (3 : Int) ≤ (d.length : Int) := by exact_mod_cast h3
  exact (peaksScan_props d maxF sr th h3i).2.2.2 c hc

set_option maxHeartbeats 1000000 in
/-- C5, witness: on `[0, 1, 0]` the scan records exactly the `interpolate`
call `(0, 1, 0)`, whose denominator `0 - 2*1 + 0 = -2` is negative. -/
theorem interp_calls_denominator_neg_witness :
    3 ≤ ([0, 1, 0] : List ℚ).length ∧
    ((0 : ℚ), (1 : ℚ), (0 : ℚ)) ∈ (peaksScan [0, 1, 0] 5000 3 0).2 ∧
    ((0 : ℚ), (1 : ℚ), (0 : ℚ)).1 - 2 * ((0 : ℚ), (1 : ℚ), (0 : ℚ)).2.1 +
      ((0 : ℚ), (1 : ℚ), (0 : ℚ)).2.2 < 0 :=
  ⟨by norm_num,
   by norm_num [peaksScan, scanLoop, initPeaks, nextI, nextJ, fallScan, riseScan,
     plateauScan, mainPeak, mainCalls, trailingStep, interpolate, pyGet, listNth],
   interp_calls_denominator_neg [0, 1, 0] 5000 3 0 (0, 1, 0) (by norm_num)
     (by norm_num [peaksScan, scanLoop, initPeaks, nextI, nextJ, fallScan, riseScan,
       plateauScan, mainPeak, mainCalls, trailingStep, interpolate, pyGet, listNth])⟩

set_option maxHeartbeats 1000000 in
/-- C6, counterexample: `peaks` does not reject the invalid length-2
spectrum `[5, 1]`; it scans it (the trailing check even reads `data[-1]`,
the last element, through Python's negative indexing) and returns two
peaks instead of raising an error. -/
theorem invalid_input_not_rejected : peaks [5, 1] 5000 2 0 = ([0, 0], [5, 5]) := by
  norm_num [peaks, peaksScan, scanLoop, initPeaks, nextI, nextJ, fallScan, riseScan,
    plateauScan, mainPeak, mainCalls, trailingStep, interpolate, pyGet, listNth]

set_option maxHeartbeats 1000000 in
/-- C6, amended: `peaks` performs no input validation at all: a length-2
spectrum is scanned and yields two peaks, a negative `sample_rate` is
accepted and produces a negative frequency, and a negative `max_frequency`
is accepted and the trailing peak is still returned. -/
theorem no_input_validation :
    peaks [5, 1] 5000 2 0 = ([0, 0], [5, 5]) ∧
    peaks [0, 1, 0] 5000 (-3) 0 = ([-1], [1]) ∧
    peaks [0, 1, 0] (-1) 3 0 = ([1], [1]) := by
  refine ⟨?_, ?_, ?_⟩
  · norm_num [peaks, peaksScan, scanLoop, initPeaks, nextI, nextJ, fallScan, riseScan,
      plateauScan, mainPeak, mainCalls, trailingStep, interpolate, pyGet, listNth]
  · norm_num [peaks, peaksScan, scanLoop, initPeaks, nextI, nextJ, fallScan, riseScan,
      plateauScan, mainPeak, mainCalls, trailingStep, interpolate, pyGet, listNth]
  · norm_num [peaks, peaksScan, scanLoop, initPeaks, nextI, nextJ, fallScan, riseScan,
      plateauScan, mainPeak, mainCalls, trailingStep, interpolate, pyGet, listNth]

set_option maxHeartbeats 1000000 in
/-- C7: on the spectrum `[0, 1, 5, 1, 0]` with `sample_rate = 10`
(`scale = 2`), default threshold `0` and default `max_frequency`, `peaks`
returns exactly one peak, interpolated over `(1, 5, 1)` at bin 2 with
`delta_x = 0`: frequencies `[4]` and amplitudes `[5]`. -/
theorem single_dominant_peak_example : peaks [0, 1, 5, 1, 0] 5000 10 0 = ([4], [5]) := by
  norm_num [peaks, peaksScan, scanLoop, initPeaks, nextI, nextJ, fallScan, riseScan,
    plateauScan, mainPeak, mainCalls, trailingStep, interpolate, pyGet, listNth]

/-- C8: for every spectrum of length at least 3 with
`spectrum[0] > spectrum[1]` and `spectrum[0] > threshold`, and any positive
sample rate, the first peak returned by `peaks` is the boundary peak
`(0, spectrum[0])`, recorded with no interpolation. -/
theorem boundary_peak_first (d : List ℚ) (maxF sr th : ℚ) (h3 : 3 ≤ d.length)
    (hsr : 0 < sr) (hgt : pyGet d 0 > pyGet d 1) (hth : pyGet d 0 > th) :
    (peaks d maxF sr th).1.head? = some 0 ∧
    (peaks d maxF sr th).2.head? = some (pyGet d 0) := by
  have h3i : (3 : Int) ≤ (d.length : Int) := by exact_mod_cast h3
  have hinit : initPeaks d (d.length : Int) (sr / (d.length : ℚ)) th =
      [((0 : ℚ) * (sr / (d.length : ℚ)), pyGet d 0)] := by
    rw [initPeaks, if_pos]
    exact ⟨by omega, hgt, hth⟩
  have hres : ∃ t, (peaksScan d maxF sr th).1 =
      ((0 : ℚ) * (sr / (d.length : ℚ)), pyGet d 0) :: t := by
    have hps : peaksScan d maxF sr th =
        (scanLoop d (d.length : Int) (sr / (d.length : ℚ)) maxF th
          ((d.length : Int).toNat + 1) 0
          (initPeaks d (d.length : Int) (sr / (d.length : ℚ)) th) []).getD
        (initPeaks d (d.length : Int) (sr / (d.length : ℚ)) th, []) := rfl
    cases hopt : scanLoop d (d.length : Int) (sr / (d.length : ℚ)) maxF th
        ((d.length : Int).toNat + 1) 0
        (initPeaks d (d.length : Int) (sr / (d.length : ℚ)) th) [] with
    | none =>
      rw [hopt, Option.getD_none] at hps
      exact ⟨[], by rw [hps, hinit]⟩
    | some p =>
      obtain ⟨res, cres⟩ := p
      rw [hopt, Option.getD_some] at hps
      obtain ⟨t, ht⟩ := scanLoop_prefix d (d.length : Int) (sr / (d.length : ℚ)) maxF th
        ((d.length : Int).toNat + 1) 0 _ [] res cres hopt
      refine ⟨t, ?_⟩
      rw [hps]
      show res = _ :: t
      rw [ht, hinit]
      rfl
  obtain ⟨t, ht⟩ := hres
  constructor
  · show ((peaksScan d maxF sr th).1.map Prod.fst).head? = some 0
    rw [ht]
    simp
  · show ((peaksScan d maxF sr th).1.map Prod.snd).head? = some (pyGet d 0)
    rw [ht]
    simp

/-- C8, witness: on `[5, 1, 0]` with any positive sample rate and threshold
below 5, the first recorded peak is `(0, 5)`. -/
theorem boundary_peak_first_witness :
    3 ≤ ([5, 1, 0] : List ℚ).length ∧ (0 : ℚ) < 10 ∧
    (peaks [5, 1, 0] 5000 10 0).1.head? = some 0 ∧
    (peaks [5, 1, 0] 5000 10 0).2.head? = some 5 := by
  have h := boundary_peak_first [5, 1, 0] 5000 10 0 (by norm_num) (by norm_num)
    (by norm_num [pyGet, listNth]) (by norm_num [pyGet, listNth])
  refine ⟨by norm_num, by norm_num, h.1, ?_⟩
  have hval : pyGet [5, 1, 0] 0 = 5 := by norm_num [pyGet, listNth]
  rw [← hval]
  exact h.2

/-- C9: on every constant spectrum of length at least 3 whose common value
is at or below the threshold, and for every positive sample rate and any
`max_frequency`, `peaks` returns two empty lists. -/
theorem flat_spectrum_empty (n : ℕ) (c maxF sr th : ℚ)
    (h3 : 3 ≤ n) (hc : c ≤ th) (hsr : 0 < sr) :
    peaks (List.replicate n c) maxF sr th = ([], []) := by
  have hlen : (List.replicate n c).length = n := by simp
  have hlenI : ((List.replicate n c).length : Int) = (n : Int) := by rw [hlen]
  have hg0 : pyGet (List.replicate n c) 0 = c := pyGet_replicate n c 0 le_rfl (by omega)
  have hg1 : pyGet (List.replicate n c) 1 = c := pyGet_replicate n c 1 (by omega) (by omega)
  have hinit : initPeaks (List.replicate n c) ((List.replicate n c).length : Int)
      (sr / ((List.replicate n c).length : ℚ)) th = [] := by
    rw [initPeaks, if_neg]
    rintro ⟨h1, h2, hx⟩
    rw [hg0, hg1] at h2
    exact lt_irrefl c h2
  have hscan : ∀ scale : ℚ, scanLoop (List.replicate n c) (n : Int) scale maxF th
      ((n : Int).toNat + 1) 0 [] [] = some ([], []) := by
    intro scale
    have hfall : fallScan (List.replicate n c) (n : Int) (n : Int).toNat 0 = (n : Int) - 2 :=
      fallScan_replicate n c (n : Int).toNat 0 le_rfl (by omega) (by omega)
    have hnI : nextI (List.replicate n c) (n : Int) 0 = (n : Int) - 2 := by
      rw [nextI, hfall]
      apply riseScan_stay
      rintro ⟨hb, _⟩
      omega
    have hnJ : nextJ (List.replicate n c) (n : Int) 0 = (n : Int) - 2 := by
      rw [nextJ, hnI]
      apply plateauScan_stay
      rintro ⟨hb, _⟩
      omega
    simp only [scanLoop]
    rw [hnJ]
    rw [if_neg (by rintro ⟨hb, _⟩; omega),
      if_pos (by omega : (n : Int) - 2 + 1 ≥ (n : Int) - 1)]
    rw [trailingStep, if_neg]
    rintro ⟨heq, hlt, _⟩
    rw [pyGet_replicate n c ((n : Int) - 2 - 1) (by omega) (by omega),
      pyGet_replicate n c ((n : Int) - 2) (by omega) (by omega)] at hlt
    exact lt_irrefl c hlt
  have hps : peaksScan (List.replicate n c) maxF sr th = ([], []) := by
    rw [peaksScan, hinit, hlenI, hscan (sr / ((List.replicate n c).length : ℚ))]
    rfl
  rw [peaks, hps]
  rfl

/-- C9, witness: the constant spectrum `[0, 0, 0]` at threshold `0` with
sample rate `1` yields two empty lists. -/
theorem flat_spectrum_empty_witness :
    3 ≤ 3 ∧ (0 : ℚ) ≤ 0 ∧ (0 : ℚ) < 1 ∧
    peaks (List.replicate 3 (0 : ℚ)) 5000 1 0 = ([], []) :=
  ⟨le_rfl, le_rfl, by norm_num, flat_spectrum_empty 3 0 5000 1 0 le_rfl le_rfl (by norm_num)⟩

/-- C10: for every spectrum of length at least 1 and any parameters and
starting accumulator, the outer scan of `peaks` terminates within the fuel
budget `size + 1` that `peaksScan` supplies: every iteration either breaks
or moves the cursor strictly to the right. -/
theorem scan_terminates (d : List ℚ) (maxF sr th : ℚ) (acc : List (ℚ × ℚ))
    (calls : List (ℚ × ℚ × ℚ)) (h1 : 1 ≤ d.length) :
    (scanLoop d (d.length : Int) (sr / (d.length : ℚ)) maxF th
      ((d.length : Int).toNat + 1) 0 acc calls).isSome = true := by
  apply scanLoop_total d (d.length : Int) (sr / (d.length : ℚ)) maxF th
    ((d.length : Int).toNat + 1) 0 acc calls le_rfl
  omega

/-- C10, witness: the scan terminates on the one-element spectrum `[0]`. -/
theorem scan_terminates_witness :
    1 ≤ ([(0 : ℚ)] : List ℚ).length ∧
    (scanLoop [(0 : ℚ)] (([(0 : ℚ)] : List ℚ).length : Int)
      (3 / (([(0 : ℚ)] : List ℚ).length : ℚ)) 5000 0
      ((([(0 : ℚ)] : List ℚ).length : Int).toNat + 1) 0 [] []).isSome = true :=
  ⟨by norm_num, scan_terminates [(0 : ℚ)] 5000 3 0 [] [] (by norm_num)⟩

end Muslib
